import Mathlib

/-!
Shallow embedding of the ASE-SDK enforcement engine
(`src/include/ase/ase.hpp`, namespace `ase`).

Modelling choices:
* `State` and `Step` are opaque type parameters, as in the C++ template.
* Each capability slot of `Dependencies` is an `Option`-valued field
  (`none` models a null function pointer).
* The admissibility predicate returns `Option Bool`: `none` models the
  predicate raising an exception, which `Engine::safe_is_admissible`
  catches and converts to an evaluation failure.
* `scale_step` / `project_step` return `Option Step`: `none` models the
  hook returning `false` (transform failure).
* The C++ `double` scalars (`k`, `scale_factor`, and the scalar demo
  domain) are modelled by `ℚ`; every concrete scenario in the spec uses
  values on which the arithmetic is exact.
* `neutral_safe`'s last-resort `Step{}` (value initialization) is
  modelled by `default` of an `Inhabited` instance.
* `enforce` in the C++ is a total, synchronously returning function; the
  Lean embedding is a structurally terminating `def`, so termination is
  by construction.  `Engine::enforceT`-style instrumentation (`Counts`)
  records how many times each capability is invoked, for the
  boundedness / non-invocation claims.
-/

namespace ase

/-- Enforcement modes (`enum class Mode`). -/
inductive Mode where
  | Reject : Mode
  | Scale : Mode
  | Project : Mode
deriving DecidableEq, Repr

/-- Fixed configuration (`struct Config`). -/
structure Config where
  mode : Mode := Mode.Reject
  max_scale_attempts : Nat := 16
  scale_factor : ℚ := 1/2

/-- Injected capability set (`struct Dependencies`): four optional hooks. -/
structure Dependencies (State Step : Type) where
  is_admissible : Option (State → Step → Option Bool) := none
  neutral_step : Option (Unit → Step) := none
  scale_step : Option (Step → ℚ → Option Step) := none
  project_step : Option (State → Step → Option Step) := none

variable {State Step : Type}

/-- Embedding of `Engine::neutral_safe`: call `neutral_step` when present, otherwise the
value-initialized `Step{}` fallback. -/
def neutral_safe [Inhabited Step] (deps : Dependencies State Step) : Step :=
  match deps.neutral_step with
  | some f => f ()
  | none => default

/-- Embedding of `Engine::safe_is_admissible`: evaluate the predicate behind the
exception boundary.  `none` = evaluation failure (the predicate threw, or
— unreachable inside `enforce` — the slot is null). -/
def safe_is_admissible (deps : Dependencies State Step) (S : State) (dS : Step) :
    Option Bool :=
  match deps.is_admissible with
  | some f => f S dS
  | none => none

/-- The loop body of `Engine::enforce_scale`: fuel-indexed rendering of
`for (i = 0; i < max_scale_attempts; ++i)`, threading the multiplier `k`. -/
def scale_loop [Inhabited Step] (deps : Dependencies State Step) (factor : ℚ)
    (sclf : Step → ℚ → Option Step) (S : State) (proposed : Step) :
    Nat → ℚ → Step
  | 0, _ => neutral_safe deps
  | Nat.succ n, k =>
    match sclf proposed k with
    | none => neutral_safe deps
    | some scaled =>
      match safe_is_admissible deps S scaled with
      | none => neutral_safe deps
      | some true => scaled
      | some false => scale_loop deps factor sclf S proposed n (k * factor)

/-- Embedding of `Engine::enforce_scale`: bounded geometric-shrinkage search, `k = 1.0`
at entry. -/
def enforce_scale [Inhabited Step] (cfg : Config) (deps : Dependencies State Step)
    (S : State) (proposed : Step) : Step :=
  match deps.scale_step with
  | none => neutral_safe deps
  | some sclf => scale_loop deps cfg.scale_factor sclf S proposed cfg.max_scale_attempts 1

/-- Embedding of `Engine::enforce_project`: single projection, then verification. -/
def enforce_project [Inhabited Step] (deps : Dependencies State Step)
    (S : State) (proposed : Step) : Step :=
  match deps.project_step with
  | none => neutral_safe deps
  | some prjf =>
    match prjf S proposed with
    | none => neutral_safe deps
    | some projected =>
      match safe_is_admissible deps S projected with
      | none => neutral_safe deps
      | some true => projected
      | some false => neutral_safe deps

/-- Embedding of `Engine::enforce`: the canonical entry point. -/
def enforce [Inhabited Step] (cfg : Config) (deps : Dependencies State Step)
    (S : State) (proposed : Step) : Step :=
  if deps.is_admissible.isNone || deps.neutral_step.isNone then
    neutral_safe deps
  else
    match safe_is_admissible deps S proposed with
    | none => neutral_safe deps
    | some true => proposed
    | some false =>
      match cfg.mode with
      | Mode.Reject => neutral_safe deps
      | Mode.Scale => enforce_scale cfg deps S proposed
      | Mode.Project => enforce_project deps S proposed

/-! Instrumented rendering: identical control flow, additionally counting
how many times each capability slot is invoked. -/

/-- Invocation counts for the four capability slots. -/
structure Counts where
  adm : Nat
  neu : Nat
  scl : Nat
  prj : Nat
deriving DecidableEq, Repr

/-- Pointwise sum of invocation counts. -/
def Counts.add (a b : Counts) : Counts :=
  ⟨a.adm + b.adm, a.neu + b.neu, a.scl + b.scl, a.prj + b.prj⟩

/-- Instrumented `neutral_safe`. -/
def neutral_safeT [Inhabited Step] (deps : Dependencies State Step) : Step × Counts :=
  match deps.neutral_step with
  | some f => (f (), ⟨0, 1, 0, 0⟩)
  | none => (default, ⟨0, 0, 0, 0⟩)

/-- Instrumented `scale_loop`. -/
def scale_loopT [Inhabited Step] (deps : Dependencies State Step) (factor : ℚ)
    (sclf : Step → ℚ → Option Step) (S : State) (proposed : Step) :
    Nat → ℚ → Step × Counts
  | 0, _ => neutral_safeT deps
  | Nat.succ n, k =>
    match sclf proposed k with
    | none =>
      let r := neutral_safeT deps
      (r.1, Counts.add ⟨0, 0, 1, 0⟩ r.2)
    | some scaled =>
      match safe_is_admissible deps S scaled with
      | none =>
        let r := neutral_safeT deps
        (r.1, Counts.add ⟨1, 0, 1, 0⟩ r.2)
      | some true => (scaled, ⟨1, 0, 1, 0⟩)
      | some false =>
        let r := scale_loopT deps factor sclf S proposed n (k * factor)
        (r.1, Counts.add ⟨1, 0, 1, 0⟩ r.2)

/-- Instrumented `enforce_scale`. -/
def enforce_scaleT [Inhabited Step] (cfg : Config) (deps : Dependencies State Step)
    (S : State) (proposed : Step) : Step × Counts :=
  match deps.scale_step with
  | none => neutral_safeT deps
  | some sclf => scale_loopT deps cfg.scale_factor sclf S proposed cfg.max_scale_attempts 1

/-- Instrumented `enforce_project`. -/
def enforce_projectT [Inhabited Step] (deps : Dependencies State Step)
    (S : State) (proposed : Step) : Step × Counts :=
  match deps.project_step with
  | none => neutral_safeT deps
  | some prjf =>
    match prjf S proposed with
    | none =>
      let r := neutral_safeT deps
      (r.1, Counts.add ⟨0, 0, 0, 1⟩ r.2)
    | some projected =>
      match safe_is_admissible deps S projected with
      | none =>
        let r := neutral_safeT deps
        (r.1, Counts.add ⟨1, 0, 0, 1⟩ r.2)
      | some true => (projected, ⟨1, 0, 0, 1⟩)
      | some false =>
        let r := neutral_safeT deps
        (r.1, Counts.add ⟨1, 0, 0, 1⟩ r.2)

/-- Instrumented `enforce`. -/
def enforceT [Inhabited Step] (cfg : Config) (deps : Dependencies State Step)
    (S : State) (proposed : Step) : Step × Counts :=
  if deps.is_admissible.isNone || deps.neutral_step.isNone then
    neutral_safeT deps
  else
    match safe_is_admissible deps S proposed with
    | none =>
      let r := neutral_safeT deps
      (r.1, Counts.add ⟨1, 0, 0, 0⟩ r.2)
    | some true => (proposed, ⟨1, 0, 0, 0⟩)
    | some false =>
      match cfg.mode with
      | Mode.Reject =>
        let r := neutral_safeT deps
        (r.1, Counts.add ⟨1, 0, 0, 0⟩ r.2)
      | Mode.Scale =>
        let r := enforce_scaleT cfg deps S proposed
        (r.1, Counts.add ⟨1, 0, 0, 0⟩ r.2)
      | Mode.Project =>
        let r := enforce_projectT deps S proposed
        (r.1, Counts.add ⟨1, 0, 0, 0⟩ r.2)

/-! The scalar demo domain from the spec's concrete scenarios (§8):
`admissible(S, dS) = |S + dS| ≤ 1`, `neutral = 0`, `scale_step(in, k) = in·k`,
`project_step(S, dS) = clamp(S + dS, [-1, 1]) - S`. -/

/-- Scalar admissibility predicate `|S + dS| ≤ 1` (never throws). -/
def demo_adm (S dS : ℚ) : Option Bool :=
  some (decide (|S + dS| ≤ 1))

/-- Scalar neutral step `0`. -/
def demo_neutral (_ : Unit) : ℚ := 0

/-- Scalar scaling hook `in · k` (never fails). -/
def demo_scale (inp k : ℚ) : Option ℚ :=
  some (inp * k)

/-- Scalar projection hook `clamp(S + dS, [-1, 1]) - S` (never fails). -/
def demo_project (S dS : ℚ) : Option ℚ :=
  some (max (-1) (min 1 (S + dS)) - S)

/-- The full scalar capability set. -/
def demo_deps : Dependencies ℚ ℚ :=
  { is_admissible := some demo_adm
    neutral_step := some demo_neutral
    scale_step := some demo_scale
    project_step := some demo_project }

/-- Reject-mode configuration used by the spec's scenario 1. -/
def demo_cfg_reject : Config :=
  { mode := Mode.Reject, max_scale_attempts := 16, scale_factor := 1/2 }

/-- Scale-mode configuration used by the spec's scenario 2. -/
def demo_cfg_scale : Config :=
  { mode := Mode.Scale, max_scale_attempts := 16, scale_factor := 1/2 }

/-- Project-mode configuration used by the spec's scenario 4. -/
def demo_cfg_project : Config :=
  { mode := Mode.Project, max_scale_attempts := 16, scale_factor := 1/2 }

/-- A capability set with a null admissibility slot (fail-closed path). -/
def deps_no_adm : Dependencies ℚ ℚ :=
  { neutral_step := some demo_neutral }

/-- A capability set with a null neutral-step slot (last-resort `Step{}`
fallback path). -/
def deps_no_neutral : Dependencies ℚ ℚ :=
  { is_admissible := some demo_adm
    scale_step := some demo_scale
    project_step := some demo_project }

/-- An admissibility predicate that throws on every evaluation (models a
host predicate whose exception is caught at the enforcement boundary). -/
def throwing_adm (_ : ℚ) (_ : ℚ) : Option Bool := none

/-- The scalar capability set with the always-throwing predicate. -/
def deps_throwing : Dependencies ℚ ℚ :=
  { is_admissible := some throwing_adm
    neutral_step := some demo_neutral
    scale_step := some demo_scale
    project_step := some demo_project }

/-! Helper lemmas shared by the claim theorems. -/

lemma neutral_safeT_fst [Inhabited Step] (deps : Dependencies State Step) :
    (neutral_safeT deps).1 = neutral_safe deps := by
  cases h : deps.neutral_step <;> simp [neutral_safeT, neutral_safe, h]

lemma neutral_safeT_counts [Inhabited Step] (deps : Dependencies State Step) :
    (neutral_safeT deps).2.adm = 0 ∧ (neutral_safeT deps).2.scl = 0 ∧
      (neutral_safeT deps).2.prj = 0 := by
  cases h : deps.neutral_step <;> simp [neutral_safeT, h]

lemma scale_loopT_fst [Inhabited Step] (deps : Dependencies State Step) (factor : ℚ)
    (sclf : Step → ℚ → Option Step) (S : State) (proposed : Step) (n : Nat) :
    ∀ k : ℚ, (scale_loopT deps factor sclf S proposed n k).1 =
      scale_loop deps factor sclf S proposed n k := by
  induction n with
  | zero => intro k; simp [scale_loopT, scale_loop, neutral_safeT_fst]
  | succ n ih =>
    intro k
    simp only [scale_loopT, scale_loop]
    cases hc : sclf proposed k with
    | none => simp [hc, neutral_safeT_fst]
    | some scaled =>
      cases ha : safe_is_admissible deps S scaled with
      | none => simp [hc, ha, neutral_safeT_fst]
      | some b => cases b <;> simp [hc, ha, ih]

lemma scale_loopT_adm_le [Inhabited Step] (deps : Dependencies State Step) (factor : ℚ)
    (sclf : Step → ℚ → Option Step) (S : State) (proposed : Step) (n : Nat) :
    ∀ k : ℚ, (scale_loopT deps factor sclf S proposed n k).2.adm ≤ n := by
  induction n with
  | zero => intro k; simp [scale_loopT, (neutral_safeT_counts deps).1]
  | succ n ih =>
    intro k
    simp only [scale_loopT]
    cases hc : sclf proposed k with
    | none => simp [hc, Counts.add, (neutral_safeT_counts deps).1]
    | some scaled =>
      cases ha : safe_is_admissible deps S scaled with
      | none => simp [hc, ha, Counts.add, (neutral_safeT_counts deps).1]
      | some b =>
        cases b with
        | true => simp [hc, ha, Counts.add]
        | false =>
          simp only [hc, ha, Counts.add]
          have := ih (k * factor)
          omega

lemma enforce_scaleT_fst [Inhabited Step] (cfg : Config) (deps : Dependencies State Step)
    (S : State) (proposed : Step) :
    (enforce_scaleT cfg deps S proposed).1 = enforce_scale cfg deps S proposed := by
  simp only [enforce_scaleT, enforce_scale]
  cases h : deps.scale_step with
  | none => simp [neutral_safeT_fst]
  | some sclf => simp [scale_loopT_fst]

lemma enforce_projectT_fst [Inhabited Step] (deps : Dependencies State Step)
    (S : State) (proposed : Step) :
    (enforce_projectT deps S proposed).1 = enforce_project deps S proposed := by
  simp only [enforce_projectT, enforce_project]
  cases h : deps.project_step with
  | none => simp [neutral_safeT_fst]
  | some prjf =>
    cases hp : prjf S proposed with
    | none => simp [hp, neutral_safeT_fst]
    | some projected =>
      cases ha : safe_is_admissible deps S projected with
      | none => simp [hp, ha, neutral_safeT_fst]
      | some b => cases b <;> simp [hp, ha, neutral_safeT_fst]

lemma enforceT_fst [Inhabited Step] (cfg : Config) (deps : Dependencies State Step)
    (S : State) (proposed : Step) :
    (enforceT cfg deps S proposed).1 = enforce cfg deps S proposed := by
  simp only [enforceT, enforce]
  by_cases hmiss : (deps.is_admissible.isNone || deps.neutral_step.isNone) = true
  · simp [hmiss, neutral_safeT_fst]
  · simp only [hmiss, Bool.false_eq_true, if_false]
    cases ha : safe_is_admissible deps S proposed with
    | none => simp [ha, neutral_safeT_fst]
    | some b =>
      cases b with
      | true => simp [ha]
      | false =>
        cases cfg.mode <;>
          simp [ha, neutral_safeT_fst, enforce_scaleT_fst, enforce_projectT_fst]

/-- First success wins: if the candidates produced at multipliers
`k·factor^0, …, k·factor^(i-1)` all exist and are inadmissible, and the
candidate at `k·factor^i` exists and is admissible with `i` inside the
attempt budget, the loop returns that candidate. -/
lemma scale_loop_success [Inhabited Step] (deps : Dependencies State Step) (factor : ℚ)
    (sclf : Step → ℚ → Option Step) (S : State) (proposed : Step) (n : Nat) :
    ∀ (k : ℚ) (i : Nat) (cand : Nat → Step), i < n →
      (∀ j, j ≤ i → sclf proposed (k * factor ^ j) = some (cand j)) →
      (∀ j, j < i → safe_is_admissible deps S (cand j) = some false) →
      safe_is_admissible deps S (cand i) = some true →
      scale_loop deps factor sclf S proposed n k = cand i := by
  induction n with
  | zero => intro k i cand hi; omega
  | succ n ih =>
    intro k i cand hi hcand hfail hsucc
    have hc0 : sclf proposed k = some (cand 0) := by
      have := hcand 0 (Nat.zero_le i)
      simpa using this
    cases i with
    | zero =>
      simp [scale_loop, hc0, hsucc]
    | succ i =>
      have hf0 : safe_is_admissible deps S (cand 0) = some false :=
        hfail 0 (Nat.succ_pos i)
      simp only [scale_loop, hc0, hf0]
      have step : ∀ j : Nat, k * factor ^ (j + 1) = k * factor * factor ^ j := by
        intro j; ring
      exact ih (k * factor) i (fun j => cand (j + 1)) (by omega)
        (fun j hj => by rw [← step]; exact hcand (j + 1) (by omega))
        (fun j hj => hfail (j + 1) (by omega)) hsucc

/-- Evaluation failure aborts: if the candidates before attempt `i` all
exist and are inadmissible, and the admissibility evaluation of the
candidate at attempt `i` fails, the loop returns the neutral step. -/
lemma scale_loop_eval_failure [Inhabited Step] (deps : Dependencies State Step) (factor : ℚ)
    (sclf : Step → ℚ → Option Step) (S : State) (proposed : Step) (n : Nat) :
    ∀ (k : ℚ) (i : Nat) (cand : Nat → Step), i < n →
      (∀ j, j ≤ i → sclf proposed (k * factor ^ j) = some (cand j)) →
      (∀ j, j < i → safe_is_admissible deps S (cand j) = some false) →
      safe_is_admissible deps S (cand i) = none →
      scale_loop deps factor sclf S proposed n k = neutral_safe deps := by
  induction n with
  | zero => intro k i cand hi; omega
  | succ n ih =>
    intro k i cand hi hcand hfail hnone
    have hc0 : sclf proposed k = some (cand 0) := by
      have := hcand 0 (Nat.zero_le i)
      simpa using this
    cases i with
    | zero =>
      simp [scale_loop, hc0, hnone]
    | succ i =>
      have hf0 : safe_is_admissible deps S (cand 0) = some false :=
        hfail 0 (Nat.succ_pos i)
      simp only [scale_loop, hc0, hf0]
      have step : ∀ j : Nat, k * factor ^ (j + 1) = k * factor * factor ^ j := by
        intro j; ring
      exact ih (k * factor) i (fun j => cand (j + 1)) (by omega)
        (fun j hj => by rw [← step]; exact hcand (j + 1) (by omega))
        (fun j hj => hfail (j + 1) (by omega)) hnone

/-- Exhaustion: if every candidate in the budget exists and is
inadmissible, the loop returns the neutral step. -/
lemma scale_loop_exhaust [Inhabited Step] (deps : Dependencies State Step) (factor : ℚ)
    (sclf : Step → ℚ → Option Step) (S : State) (proposed : Step) (n : Nat) :
    ∀ (k : ℚ) (cand : Nat → Step),
      (∀ j, j < n → sclf proposed (k * factor ^ j) = some (cand j)) →
      (∀ j, j < n → safe_is_admissible deps S (cand j) = some false) →
      scale_loop deps factor sclf S proposed n k = neutral_safe deps := by
  induction n with
  | zero => intro k cand _ _; simp [scale_loop]
  | succ n ih =>
    intro k cand hcand hfail
    have hc0 : sclf proposed k = some (cand 0) := by
      have := hcand 0 (Nat.succ_pos n)
      simpa using this
    have hf0 : safe_is_admissible deps S (cand 0) = some false :=
      hfail 0 (Nat.succ_pos n)
    simp only [scale_loop, hc0, hf0]
    have step : ∀ j : Nat, k * factor ^ (j + 1) = k * factor * factor ^ j := by
      intro j; ring
    exact ih (k * factor) (fun j => cand (j + 1))
      (fun j hj => by rw [← step]; exact hcand (j + 1) (by omega))
      (fun j hj => hfail (j + 1) (by omega))

/-- Safety of the scale loop: whatever it returns is either a candidate
the admissibility predicate approved, or the neutral step. -/
lemma scale_loop_safety [Inhabited Step] (deps : Dependencies State Step) (factor : ℚ)
    (sclf : Step → ℚ → Option Step) (S : State) (proposed : Step) (n : Nat) :
    ∀ k : ℚ,
      safe_is_admissible deps S (scale_loop deps factor sclf S proposed n k) = some true ∨
        scale_loop deps factor sclf S proposed n k = neutral_safe deps := by
  induction n with
  | zero => intro k; right; simp [scale_loop]
  | succ n ih =>
    intro k
    simp only [scale_loop]
    cases hc : sclf proposed k with
    | none => right; simp [hc]
    | some scaled =>
      cases ha : safe_is_admissible deps S scaled with
      | none => right; simp [hc, ha]
      | some b =>
        cases b with
        | true =>
          simp only [hc, ha]
          exact Or.inl trivial
        | false =>
          simp only [hc, ha]
          exact ih (k * factor)

/-- C1: for every state `S` and proposed step, when all four capability
slots are supplied and the admissibility predicate is pure and total
(never fails to produce a boolean), the step returned by `enforce` either
satisfies `is_admissible(S, returned) = true` or is exactly
`neutral_step()`. -/
theorem enforce_safety_invariant [Inhabited Step] (cfg : Config)
    (deps : Dependencies State Step)
    (adm : State → Step → Option Bool) (neu : Unit → Step)
    (sclf : Step → ℚ → Option Step) (prjf : State → Step → Option Step)
    (hadm : deps.is_admissible = some adm)
    (hneu : deps.neutral_step = some neu)
    (hscl : deps.scale_step = some sclf)
    (hprj : deps.project_step = some prjf)
    (_htotal : ∀ s x, (adm s x).isSome)
    (S : State) (proposed : Step) :
    adm S (enforce cfg deps S proposed) = some true ∨
      enforce cfg deps S proposed = neu () := by
  have hsafe : ∀ x : Step, safe_is_admissible deps S x = adm S x := by
    intro x; simp [safe_is_admissible, hadm]
  have hneutral : neutral_safe deps = neu () := by
    simp [neutral_safe, hneu]
  simp only [enforce, hadm, hneu, Option.isNone_some, Bool.or_self, Bool.false_eq_true,
    if_false]
  cases hp : safe_is_admissible deps S proposed with
  | none => right; simp [hp, hneutral]
  | some b =>
    cases b with
    | true =>
      left
      have hpt : adm S proposed = some true := by rw [← hsafe]; exact hp
      simp [hp, hpt]
    | false =>
      cases hm : cfg.mode with
      | Reject => right; simp [hp, hm, hneutral]
      | Scale =>
        simp only [hp, hm]
        simp only [enforce_scale, hscl]
        rcases scale_loop_safety deps cfg.scale_factor sclf S proposed
            cfg.max_scale_attempts 1 with h | h
        · left; rw [← hsafe]; exact h
        · right; rw [h, hneutral]
      | Project =>
        simp only [hp, hm]
        simp only [enforce_project, hprj]
        cases hq : prjf S proposed with
        | none => right; simp [hq, hneutral]
        | some q =>
          cases ha2 : safe_is_admissible deps S q with
          | none => right; simp [hq, ha2, hneutral]
          | some b2 =>
            cases b2 with
            | true =>
              left
              simp only [hq, ha2]
              rw [← hsafe]; exact ha2
            | false => right; simp [hq, ha2, hneutral]

/-- C1 witness: the safety invariant instantiated on the scalar demo
domain in Scale mode at `S = 9/10`, `proposed = 1/2`. -/
theorem enforce_safety_invariant_check :
    demo_adm (9/10) (enforce demo_cfg_scale demo_deps (9/10) (1/2)) = some true ∨
      enforce demo_cfg_scale demo_deps (9/10) (1/2) = demo_neutral () :=
  enforce_safety_invariant demo_cfg_scale demo_deps demo_adm demo_neutral demo_scale
    demo_project rfl rfl rfl rfl (fun _ _ => rfl) (9/10) (1/2)

/-- C2: when the admissibility and neutral-step capabilities are present
and the predicate approves the proposed step, `enforce` returns the
proposal unchanged, whatever the configured mode. -/
theorem enforce_pass_through [Inhabited Step] (cfg : Config)
    (deps : Dependencies State Step)
    (adm : State → Step → Option Bool) (neu : Unit → Step)
    (hadm : deps.is_admissible = some adm)
    (hneu : deps.neutral_step = some neu)
    (S : State) (proposed : Step)
    (hpass : adm S proposed = some true) :
    enforce cfg deps S proposed = proposed := by
  simp [enforce, hadm, hneu, safe_is_admissible, hpass]

/-- C2 witness: the spec's scenario 6 — `S = 0`, `proposed = 1/5` is
admissible and passes through exactly. -/
theorem enforce_pass_through_check :
    enforce demo_cfg_scale demo_deps 0 (1/5) = 1/5 :=
  enforce_pass_through demo_cfg_scale demo_deps demo_adm demo_neutral rfl rfl 0 (1/5)
    (by norm_num [demo_adm, abs])

/-- C4: in Reject mode, an inadmissible proposal yields the neutral step,
and the only capabilities invoked are the admissibility predicate (once)
and the neutral-step provider (once). -/
theorem enforce_reject_neutral [Inhabited Step] (cfg : Config)
    (deps : Dependencies State Step)
    (adm : State → Step → Option Bool) (neu : Unit → Step)
    (hadm : deps.is_admissible = some adm)
    (hneu : deps.neutral_step = some neu)
    (hmode : cfg.mode = Mode.Reject)
    (S : State) (proposed : Step)
    (hinadm : adm S proposed = some false) :
    enforce cfg deps S proposed = neu () ∧
      enforceT cfg deps S proposed = (neu (), ⟨1, 1, 0, 0⟩) := by
  constructor
  · simp [enforce, hadm, hneu, safe_is_admissible, hinadm, hmode, neutral_safe]
  · simp [enforceT, hadm, hneu, safe_is_admissible, hinadm, hmode, neutral_safeT,
      Counts.add]

/-- C4 witness: the spec's scenario 1 — Reject mode at `S = 9/10`,
`proposed = 1/2` returns `0`, invoking only the predicate and the
neutral-step provider. -/
theorem enforce_reject_neutral_check :
    enforce demo_cfg_reject demo_deps (9/10) (1/2) = 0 ∧
      enforceT demo_cfg_reject demo_deps (9/10) (1/2) = (0, ⟨1, 1, 0, 0⟩) :=
  enforce_reject_neutral demo_cfg_reject demo_deps demo_adm demo_neutral rfl rfl rfl
    (9/10) (1/2) (by norm_num [demo_adm, abs])

/-- C9: determinism of `enforce` — equal configurations and equal
capability sets give identical results on identical `(S, proposed)`. -/
theorem enforce_deterministic [Inhabited Step] (cfg₁ cfg₂ : Config)
    (deps₁ deps₂ : Dependencies State Step) (S : State) (proposed : Step)
    (hcfg : cfg₁ = cfg₂) (hdeps : deps₁ = deps₂) :
    enforce cfg₁ deps₁ S proposed = enforce cfg₂ deps₂ S proposed := by
  subst hcfg; subst hdeps; rfl

/-- C9 witness: determinism instantiated on the scalar demo domain. -/
theorem enforce_deterministic_check :
    enforce demo_cfg_scale demo_deps (9/10) (1/2) =
      enforce demo_cfg_scale demo_deps (9/10) (1/2) :=
  enforce_deterministic demo_cfg_scale demo_cfg_scale demo_deps demo_deps (9/10) (1/2)
    rfl rfl

/-- C3: Scale-mode search law — on an inadmissible proposal the engine
tries `scale_step(proposed, scale_factor^j)` for `j = 0, 1, …` (i.e. `k`
starts at `1` and is multiplied by `scale_factor` after each failed
attempt), within `max_scale_attempts` attempts; the first candidate the
predicate approves is returned, and exhaustion yields the neutral step. -/
theorem enforce_scale_spec [Inhabited Step] (cfg : Config)
    (deps : Dependencies State Step)
    (adm : State → Step → Option Bool) (neu : Unit → Step)
    (sclf : Step → ℚ → Option Step)
    (hadm : deps.is_admissible = some adm)
    (hneu : deps.neutral_step = some neu)
    (hscl : deps.scale_step = some sclf)
    (hmode : cfg.mode = Mode.Scale)
    (S : State) (proposed : Step)
    (hinadm : adm S proposed = some false) :
    (∀ (i : Nat) (cand : Nat → Step), i < cfg.max_scale_attempts →
      (∀ j, j ≤ i → sclf proposed (cfg.scale_factor ^ j) = some (cand j)) →
      (∀ j, j < i → adm S (cand j) = some false) →
      adm S (cand i) = some true →
      enforce cfg deps S proposed = cand i) ∧
    (∀ cand : Nat → Step,
      (∀ j, j < cfg.max_scale_attempts →
        sclf proposed (cfg.scale_factor ^ j) = some (cand j)) →
      (∀ j, j < cfg.max_scale_attempts → adm S (cand j) = some false) →
      enforce cfg deps S proposed = neu ()) := by
  have hsafe : ∀ x : Step, safe_is_admissible deps S x = adm S x := by
    intro x; simp [safe_is_admissible, hadm]
  have hneutral : neutral_safe deps = neu () := by simp [neutral_safe, hneu]
  have henf : enforce cfg deps S proposed =
      scale_loop deps cfg.scale_factor sclf S proposed cfg.max_scale_attempts 1 := by
    simp [enforce, hadm, hneu, safe_is_admissible, hinadm, hmode, enforce_scale, hscl]
  constructor
  · intro i cand hi hcand hfail hsucc
    rw [henf]
    exact scale_loop_success deps cfg.scale_factor sclf S proposed
      cfg.max_scale_attempts 1 i cand hi
      (fun j hj => by rw [one_mul]; exact hcand j hj)
      (fun j hj => by rw [hsafe]; exact hfail j hj)
      (by rw [hsafe]; exact hsucc)
  · intro cand hcand hfail
    rw [henf, ← hneutral]
    exact scale_loop_exhaust deps cfg.scale_factor sclf S proposed
      cfg.max_scale_attempts 1 cand
      (fun j hj => by rw [one_mul]; exact hcand j hj)
      (fun j hj => by rw [hsafe]; exact hfail j hj)

/-- C3 witness: the spec's scenario 2 — Scale mode,
`max_scale_attempts = 16`, `scale_factor = 1/2`, `S = 9/10`,
`proposed = 1/2`: attempts at `k = 1, 1/2, 1/4` fail and `k = 1/8`
succeeds, returning `1/2 · 1/8 = 1/16` (= 0.0625). -/
theorem enforce_scale_spec_check :
    enforce demo_cfg_scale demo_deps (9/10) (1/2) = 1/16 := by
  have h := (enforce_scale_spec demo_cfg_scale demo_deps demo_adm demo_neutral demo_scale
      rfl rfl rfl rfl (9/10) (1/2) (by norm_num [demo_adm, abs])).1
  have hc := h 3 (fun j => (1/2 : ℚ) * (1/2 : ℚ) ^ j) (by decide)
      (fun j _ => rfl)
      (fun j hj => by interval_cases j <;> norm_num [demo_adm, abs])
      (by norm_num [demo_adm, abs])
  have h16 : ((1 : ℚ)/2) * ((1 : ℚ)/2) ^ 3 = 1/16 := by norm_num
  rw [← h16]
  exact hc

/-- C5: Project-mode law — on an inadmissible proposal with the project
hook present, the hook is invoked exactly once; transform failure,
verification failure, and an inadmissible projection all yield neutral,
and an admissible projection is returned. -/
theorem enforce_project_spec [Inhabited Step] (cfg : Config)
    (deps : Dependencies State Step)
    (adm : State → Step → Option Bool) (neu : Unit → Step)
    (prjf : State → Step → Option Step)
    (hadm : deps.is_admissible = some adm)
    (hneu : deps.neutral_step = some neu)
    (hprj : deps.project_step = some prjf)
    (hmode : cfg.mode = Mode.Project)
    (S : State) (proposed : Step)
    (hinadm : adm S proposed = some false) :
    (prjf S proposed = none → enforce cfg deps S proposed = neu ()) ∧
    (∀ q, prjf S proposed = some q → adm S q = none →
      enforce cfg deps S proposed = neu ()) ∧
    (∀ q, prjf S proposed = some q → adm S q = some false →
      enforce cfg deps S proposed = neu ()) ∧
    (∀ q, prjf S proposed = some q → adm S q = some true →
      enforce cfg deps S proposed = q) ∧
    (enforceT cfg deps S proposed).2.prj = 1 := by
  have hsp : safe_is_admissible deps S proposed = some false := by
    simp [safe_is_admissible, hadm, hinadm]
  have hneutral : neutral_safe deps = neu () := by simp [neutral_safe, hneu]
  have henf : enforce cfg deps S proposed = enforce_project deps S proposed := by
    simp [enforce, hadm, hneu, hsp, hmode]
  refine ⟨?_, ?_, ?_, ?_, ?_⟩
  · intro hq
    rw [henf]
    simp [enforce_project, hprj, hq, hneutral]
  · intro q hq ha
    rw [henf]
    simp [enforce_project, hprj, hq, safe_is_admissible, hadm, ha, hneutral]
  · intro q hq ha
    rw [henf]
    simp [enforce_project, hprj, hq, safe_is_admissible, hadm, ha, hneutral]
  · intro q hq ha
    rw [henf]
    simp [enforce_project, hprj, hq, safe_is_admissible, hadm, ha]
  · simp only [enforceT, hadm, hneu, Option.isNone_some, Bool.or_self,
      Bool.false_eq_true, if_false, hsp, hmode]
    simp only [enforce_projectT, hprj]
    have hprj0 := (neutral_safeT_counts deps).2.2
    cases hq : prjf S proposed with
    | none => simp [Counts.add, hprj0]
    | some q =>
      cases ha : safe_is_admissible deps S q with
      | none => simp [ha, Counts.add, hprj0]
      | some b => cases b <;> simp [ha, Counts.add, hprj0]

/-- C5 witness: the spec's scenario 4 — Project mode with the clamping
projection at `S = 9/10`, `proposed = 1/2` returns `1/10` (the clamped
next state is exactly `1`). -/
theorem enforce_project_spec_check :
    enforce demo_cfg_project demo_deps (9/10) (1/2) = 1/10 := by
  have h := (enforce_project_spec demo_cfg_project demo_deps demo_adm demo_neutral
      demo_project rfl rfl rfl rfl (9/10) (1/2) (by norm_num [demo_adm, abs])).2.2.2.1
  exact h (1/10) (by norm_num [demo_project]) (by norm_num [demo_adm, abs])

/-- Helper: the instrumented projection strategy evaluates admissibility
at most once. -/
lemma enforce_projectT_adm_le [Inhabited Step] (deps : Dependencies State Step)
    (S : State) (proposed : Step) :
    (enforce_projectT deps S proposed).2.adm ≤ 1 := by
  have hadm0 := (neutral_safeT_counts deps).1
  simp only [enforce_projectT]
  cases hpr : deps.project_step with
  | none => simp [hadm0]
  | some prjf =>
    cases hq : prjf S proposed with
    | none => simp [hq, Counts.add, hadm0]
    | some q =>
      cases ha : safe_is_admissible deps S q with
      | none => simp [hq, ha, Counts.add, hadm0]
      | some b => cases b <;> simp [hq, ha, Counts.add, hadm0]

/-- Helper: the instrumented scale strategy evaluates admissibility at
most `max_scale_attempts` times. -/
lemma enforce_scaleT_adm_le [Inhabited Step] (cfg : Config)
    (deps : Dependencies State Step) (S : State) (proposed : Step) :
    (enforce_scaleT cfg deps S proposed).2.adm ≤ cfg.max_scale_attempts := by
  simp only [enforce_scaleT]
  cases hs : deps.scale_step with
  | none => simp [(neutral_safeT_counts deps).1]
  | some sclf =>
    simpa using scale_loopT_adm_le deps cfg.scale_factor sclf S proposed
      cfg.max_scale_attempts 1

/-- C6: a single `enforce` call terminates (the instrumented run computes
the same total result) and evaluates admissibility at most
`1 + max_scale_attempts` times in Scale mode and at most `2` times in
Reject or Project mode, for every configuration, including degenerate
scale factors. -/
theorem enforce_bounded (cfg : Config) {State Step : Type} [Inhabited Step]
    (deps : Dependencies State Step) (S : State) (proposed : Step) :
    (enforceT cfg deps S proposed).1 = enforce cfg deps S proposed ∧
    (cfg.mode = Mode.Scale →
      (enforceT cfg deps S proposed).2.adm ≤ 1 + cfg.max_scale_attempts) ∧
    (cfg.mode = Mode.Reject ∨ cfg.mode = Mode.Project →
      (enforceT cfg deps S proposed).2.adm ≤ 2) := by
  have hadm0 := (neutral_safeT_counts deps).1
  refine ⟨enforceT_fst cfg deps S proposed, ?_, ?_⟩
  · intro hmode
    simp only [enforceT]
    by_cases hmiss : (deps.is_admissible.isNone || deps.neutral_step.isNone) = true
    · simp [hmiss, hadm0]
    · simp only [hmiss, Bool.false_eq_true, if_false]
      cases hp : safe_is_admissible deps S proposed with
      | none => simp [hp, Counts.add, hadm0]
      | some b =>
        cases b with
        | true => simp [hp, Counts.add]
        | false =>
          simp [hp, hmode, Counts.add]
          have h := enforce_scaleT_adm_le cfg deps S proposed
          omega
  · intro hmode
    simp only [enforceT]
    by_cases hmiss : (deps.is_admissible.isNone || deps.neutral_step.isNone) = true
    · simp [hmiss, hadm0]
    · simp only [hmiss, Bool.false_eq_true, if_false]
      cases hp : safe_is_admissible deps S proposed with
      | none => simp [hp, Counts.add, hadm0]
      | some b =>
        cases b with
        | true => simp [hp, Counts.add]
        | false =>
          rcases hmode with hm | hm
          · simp [hp, hm, Counts.add, hadm0]
          · simp [hp, hm, Counts.add]
            have h := enforce_projectT_adm_le deps S proposed
            omega

/-- C6 witness: the admissibility-evaluation bound instantiated in Scale
mode on the scalar demo domain. -/
theorem enforce_bounded_check :
    (enforceT demo_cfg_scale demo_deps (9/10) (1/2)).2.adm ≤ 1 + 16 :=
  (enforce_bounded demo_cfg_scale demo_deps (9/10) (1/2)).2.1 rfl

/-- C7: missing capabilities fail closed — an absent admissibility or
neutral-step slot makes `enforce` return the (fallback) neutral step with
no other capability invoked; an absent scale (resp. project) hook in
Scale (resp. Project) mode makes an inadmissible proposal yield the
host's neutral step. -/
theorem enforce_missing_caps (cfg : Config) {State Step : Type} [Inhabited Step]
    (deps : Dependencies State Step) (S : State) (proposed : Step) :
    (deps.is_admissible = none ∨ deps.neutral_step = none →
      enforce cfg deps S proposed = neutral_safe deps ∧
      (enforceT cfg deps S proposed).2.adm = 0 ∧
      (enforceT cfg deps S proposed).2.scl = 0 ∧
      (enforceT cfg deps S proposed).2.prj = 0) ∧
    (∀ (adm : State → Step → Option Bool) (neu : Unit → Step),
      deps.is_admissible = some adm → deps.neutral_step = some neu →
      adm S proposed = some false →
      (cfg.mode = Mode.Scale → deps.scale_step = none →
        enforce cfg deps S proposed = neu ()) ∧
      (cfg.mode = Mode.Project → deps.project_step = none →
        enforce cfg deps S proposed = neu ())) := by
  constructor
  · intro hmiss
    have hcond : (deps.is_admissible.isNone || deps.neutral_step.isNone) = true := by
      rcases hmiss with h | h <;> simp [h]
    refine ⟨by simp [enforce, hcond], ?_, ?_, ?_⟩ <;>
      simp [enforceT, hcond, (neutral_safeT_counts deps).1,
        (neutral_safeT_counts deps).2.1, (neutral_safeT_counts deps).2.2]
  · intro adm neu hadm hneu hinadm
    have hsp : safe_is_admissible deps S proposed = some false := by
      simp [safe_is_admissible, hadm, hinadm]
    have hneutral : neutral_safe deps = neu () := by simp [neutral_safe, hneu]
    constructor
    · intro hm hs
      simp [enforce, hadm, hneu, hsp, hm, enforce_scale, hs, hneutral]
    · intro hm hpnone
      simp [enforce, hadm, hneu, hsp, hm, enforce_project, hpnone, hneutral]

/-- C7 witness: with the admissibility slot null, `enforce` returns the
neutral step and invokes neither the predicate nor a transform. -/
theorem enforce_missing_caps_check :
    enforce demo_cfg_scale deps_no_adm (9/10) (1/2) = neutral_safe deps_no_adm ∧
      (enforceT demo_cfg_scale deps_no_adm (9/10) (1/2)).2.adm = 0 ∧
      (enforceT demo_cfg_scale deps_no_adm (9/10) (1/2)).2.scl = 0 ∧
      (enforceT demo_cfg_scale deps_no_adm (9/10) (1/2)).2.prj = 0 :=
  (enforce_missing_caps demo_cfg_scale deps_no_adm (9/10) (1/2)).1 (Or.inl rfl)

/-- C8: the exception boundary — whenever the host predicate throws
(evaluation yields no boolean), on the initial check, on a Scale-loop
candidate check, or on the Project verification check, `enforce` returns
the host's neutral step; no exception escapes (the embedding is total by
construction). -/
theorem enforce_exception_boundary [Inhabited Step] (cfg : Config)
    (deps : Dependencies State Step)
    (adm : State → Step → Option Bool) (neu : Unit → Step)
    (hadm : deps.is_admissible = some adm)
    (hneu : deps.neutral_step = some neu)
    (S : State) (proposed : Step) :
    (adm S proposed = none → enforce cfg deps S proposed = neu ()) ∧
    (∀ sclf : Step → ℚ → Option Step, deps.scale_step = some sclf →
      cfg.mode = Mode.Scale → adm S proposed = some false →
      ∀ (i : Nat) (cand : Nat → Step), i < cfg.max_scale_attempts →
        (∀ j, j ≤ i → sclf proposed (cfg.scale_factor ^ j) = some (cand j)) →
        (∀ j, j < i → adm S (cand j) = some false) →
        adm S (cand i) = none →
        enforce cfg deps S proposed = neu ()) ∧
    (∀ (prjf : State → Step → Option Step) (q : Step),
      deps.project_step = some prjf →
      cfg.mode = Mode.Project → adm S proposed = some false →
      prjf S proposed = some q → adm S q = none →
      enforce cfg deps S proposed = neu ()) := by
  have hsafe : ∀ x : Step, safe_is_admissible deps S x = adm S x := by
    intro x; simp [safe_is_admissible, hadm]
  have hneutral : neutral_safe deps = neu () := by simp [neutral_safe, hneu]
  refine ⟨?_, ?_, ?_⟩
  · intro hp
    simp [enforce, hadm, hneu, safe_is_admissible, hp, neutral_safe]
  · intro sclf hscl hmode hinadm i cand hi hcand hfail hnone
    have henf : enforce cfg deps S proposed =
        scale_loop deps cfg.scale_factor sclf S proposed cfg.max_scale_attempts 1 := by
      simp [enforce, hadm, hneu, safe_is_admissible, hinadm, hmode, enforce_scale, hscl]
    rw [henf, ← hneutral]
    exact scale_loop_eval_failure deps cfg.scale_factor sclf S proposed
      cfg.max_scale_attempts 1 i cand hi
      (fun j hj => by rw [one_mul]; exact hcand j hj)
      (fun j hj => by rw [hsafe]; exact hfail j hj)
      (by rw [hsafe]; exact hnone)
  · intro prjf q hprj hmode hinadm hq hnone
    have hsp : safe_is_admissible deps S proposed = some false := by
      simp [safe_is_admissible, hadm, hinadm]
    simp [enforce, hadm, hneu, hsp, hinadm, hmode, enforce_project, hprj, hq,
      safe_is_admissible, hnone, hneutral]

/-- C8 witness: an always-throwing predicate makes `enforce` return the
neutral step `0` on the initial check. -/
theorem enforce_exception_boundary_check :
    enforce demo_cfg_scale deps_throwing (9/10) (1/2) = 0 :=
  (enforce_exception_boundary demo_cfg_scale deps_throwing throwing_adm demo_neutral
    rfl rfl (9/10) (1/2)).1 rfl

/-- C10: with a null neutral-step slot, `enforce` returns the
value-initialized default step for every input in every mode, invoking no
capability at all — in particular an admissible proposal is not passed
through. -/
theorem enforce_null_neutral [Inhabited Step] (cfg : Config)
    (deps : Dependencies State Step) (S : State) (proposed : Step)
    (hneu : deps.neutral_step = none) :
    enforce cfg deps S proposed = (default : Step) ∧
      (enforceT cfg deps S proposed).2 = ⟨0, 0, 0, 0⟩ := by
  have hcond : (deps.is_admissible.isNone || deps.neutral_step.isNone) = true := by
    simp [hneu]
  constructor
  · simp [enforce, hcond, neutral_safe, hneu]
  · simp [enforceT, hcond, neutral_safeT, hneu]

/-- C10 witness: with the neutral slot null and an admissible proposal
(`S = 0`, `proposed = 1/5`), `enforce` returns `Step{} = 0`, not the
proposal, with zero capability invocations. -/
theorem enforce_null_neutral_check :
    enforce demo_cfg_reject deps_no_neutral 0 (1/5) = 0 ∧
      (enforceT demo_cfg_reject deps_no_neutral 0 (1/5)).2 = ⟨0, 0, 0, 0⟩ :=
  enforce_null_neutral demo_cfg_reject deps_no_neutral 0 (1/5) rfl

end ase
